import Mathlib

set_option maxRecDepth 100000

/-!
Verification of the M2 model-loader core (binary reader, chunk/offset
discipline, track decoding helpers, BLP texture codec, sequence manager)
against its natural-language specification.  Buffers are modelled as lists
of byte values (`List Nat`), little-endian reads return `Option`/`Except`
values where the JavaScript `DataView` would raise a `RangeError`, and
thrown JavaScript errors are modelled with an explicit error type.
-/

namespace M2

/-- Errors thrown by the JavaScript code: `RangeError` from out-of-bounds
`DataView`/typed-array access, `TypeError` from dereferencing `undefined`
or assigning to a `const` binding, and plain `Error` objects thrown for
invalid file magics. -/
inductive JsError where
  | rangeError : JsError
  | typeError : JsError
  | invalidFormat : JsError
deriving DecidableEq, Repr

/-! ## BinaryParser: little-endian reads over a byte buffer -/

/-- One byte (`DataView.getUint8`); `none` models the `RangeError` thrown
on an out-of-bounds access. -/
def readUInt8 (b : List Nat) (pos : Nat) : Option Nat :=
  b[pos]?

/-- Little-endian `getUint16`. -/
def readUInt16 (b : List Nat) (pos : Nat) : Option Nat := do
  let b0 ← readUInt8 b pos
  let b1 ← readUInt8 b (pos + 1)
  pure (b0 + 256 * b1)

/-- Little-endian `getUint32`. -/
def readUInt32 (b : List Nat) (pos : Nat) : Option Nat := do
  let b0 ← readUInt8 b pos
  let b1 ← readUInt8 b (pos + 1)
  let b2 ← readUInt8 b (pos + 2)
  let b3 ← readUInt8 b (pos + 3)
  pure (b0 + 256 * b1 + 65536 * b2 + 16777216 * b3)

/-- Little-endian signed `getInt16` (twos-complement). -/
def readInt16 (b : List Nat) (pos : Nat) : Option Int := do
  let v ← readUInt16 b pos
  pure (if v < 32768 then (v : Int) else (v : Int) - 65536)

/-- Four raw bytes, as read by `readString( 4 )`; the string is modelled by
its list of code units. -/
def readTag (b : List Nat) (pos : Nat) : Option (List Nat) := do
  let b0 ← readUInt8 b pos
  let b1 ← readUInt8 b (pos + 1)
  let b2 ← readUInt8 b (pos + 2)
  let b3 ← readUInt8 b (pos + 3)
  pure [b0, b1, b2, b3]

/-- Code units of the outer chunked-wrapper magic string. -/
def MAGIC_MD21 : List Nat := [77, 68, 50, 49]

/-- Code units of the core record magic string. -/
def MAGIC_MD20 : List Nat := [77, 68, 50, 48]

/-- Mutable cursor state of `BinaryParser`: the absolute read position and
the chunk-origin base offset added by every `moveTo`. -/
structure CursorState where
  offset : Nat
  chunkOffset : Nat
deriving DecidableEq, Repr

/-- A fresh `BinaryParser` starts at position `0` with chunk origin `0`. -/
def initialCursor : CursorState := ⟨0, 0⟩

/-- Seek method `BinaryParser.moveTo`: set the absolute position to
`offset + chunkOffset`. -/
def moveTo (st : CursorState) (o : Nat) : CursorState :=
  { st with offset := o + st.chunkOffset }

/-- Reading `readString( 4 )` through the cursor: read four bytes at the current
position and advance by four. -/
def readTagSt (b : List Nat) (st : CursorState) : Option (List Nat × CursorState) := do
  let t ← readTag b st.offset
  pure (t, { st with offset := st.offset + 4 })

/-- The magic-detection prefix of `M2Loader.parse`: read a 4-byte magic;
when it is the chunked-wrapper magic, skip the 4-byte size field, set the
chunk origin to the current position, and re-read the real magic. -/
def parseMagicDetect (b : List Nat) : Option (List Nat × CursorState) := do
  let (magic, st1) ← readTagSt b initialCursor
  if magic = MAGIC_MD21 then
    let st2 := { st1 with offset := st1.offset + 4 }
    let st3 := { st2 with chunkOffset := st2.offset }
    readTagSt b st3
  else
    pure (magic, st1)

/-! ## Track value decoding (`extractValues`) -/

/-- Per-component decode of a compressed quaternion: the exact JavaScript
expression `( c < 0 ? c + 32768 : c - 32767 ) / 32767`, over exact
rationals. -/
def quatShortToFloat (c : Int) : ℚ :=
  (if c < 0 then (c : ℚ) + 32768 else (c : ℚ) - 32767) / 32767

/-- The `quatCompressed` case of `extractValues`: four consecutive
little-endian `int16` reads, each mapped by `quatShortToFloat`. -/
def extractQuatCompressed (b : List Nat) (pos : Nat) : Option (List ℚ) := do
  let x ← readInt16 b pos
  let y ← readInt16 b (pos + 2)
  let z ← readInt16 b (pos + 4)
  let w ← readInt16 b (pos + 6)
  pure [quatShortToFloat x, quatShortToFloat y, quatShortToFloat z, quatShortToFloat w]

/-! ## Tracks -/

/-- A decoded animation track: per-sub-sequence timestamp lists (seconds)
and per-sub-sequence flattened value lists. -/
structure M2Track where
  timestamps : List (List ℚ)
  values : List (List ℚ)
deriving DecidableEq, Repr

/-- Predicate `isStaticTrack`: `timestamps.length === 1 && timestamps[0].length === 1
&& timestamps[0][0] === 0`. -/
def isStaticTrack (t : M2Track) : Bool :=
  t.timestamps.length == 1 && (t.timestamps.getD 0 []).length == 1
    && ((t.timestamps.getD 0 []).getD 0 1 == 0)

/-! ## Side-chunk table scan (`M2Loader._readChunks`) -/

/-- The scan loop of `_readChunks`: starting at `pos`, read a 4-byte tag
and a 4-byte size, record `(tag, start, end)` with
`start = pos + 8`, `end = start + size`, jump to `end`, and repeat while
the position is below the buffer end.  `none` models the `RangeError`
thrown when a read runs past the buffer.  The fuel argument only bounds
the recursion; `readChunks` supplies enough for the loop to finish, since
every iteration advances the position by at least eight. -/
def readChunksLoop (b : List Nat) : Nat → Nat → Option (List (List Nat × Nat × Nat))
  | _, 0 => none
  | pos, fuel + 1 =>
    if pos < b.length then
      match readTag b pos, readUInt32 b (pos + 4) with
      | some tag, some size =>
        (readChunksLoop b (pos + 8 + size) fuel).map
          (fun rest => (tag, pos + 8, pos + 8 + size) :: rest)
      | _, _ => none
    else
      some []

/-- Function `M2Loader._readChunks` builds a fresh `BinaryParser` over the whole
buffer and scans from position `0`. -/
def readChunks (b : List Nat) : Option (List (List Nat × Nat × Nat)) :=
  readChunksLoop b 0 (b.length + 1)

/-- Spec-claim version of the side-chunk scan, for comparison with
`readChunks`: the scan is said to start at the chunk origin, which for a
chunked container is position `8`. -/
def readChunksSpecFromOrigin (b : List Nat) : Option (List (List Nat × Nat × Nat)) :=
  readChunksLoop b 8 (b.length + 1)

/-- Chained-consumption invariant of a chunk-table scan beginning at
`pos`: each recorded entry starts eight bytes past its tag, covers exactly
the size read next to the tag, and the next entry begins where the
previous one ends; the scan ends only once the position has reached or
passed the buffer end. -/
def ChunkEntriesChained (b : List Nat) : Nat → List (List Nat × Nat × Nat) → Prop
  | pos, [] => b.length ≤ pos
  | pos, (tag, s, e) :: rest =>
    pos < b.length ∧ readTag b pos = some tag ∧ s = pos + 8 ∧ s ≤ e ∧
      readUInt32 b (pos + 4) = some (e - s) ∧ ChunkEntriesChained b e rest

/-! ## BLP texture codec (`BLPLoader.parse`) -/

/-- Code units of the texture-container magic string. -/
def MAGIC_BLP2 : List Nat := [66, 76, 80, 50]

/-- A `getUint32` read that also returns the advanced position. -/
def readU32Step (b : List Nat) (pos : Nat) : Option (Nat × Nat) :=
  (readUInt32 b pos).map (fun v => (v, pos + 4))

/-- A `getUint8` read that also returns the advanced position. -/
def readU8Step (b : List Nat) (pos : Nat) : Option (Nat × Nat) :=
  (readUInt8 b pos).map (fun v => (v, pos + 1))

/-- Chained `n` consecutive `getUint32` reads, returning the values and the final
position. -/
def readU32ListStep (b : List Nat) (pos : Nat) : Nat → Option (List Nat × Nat)
  | 0 => some ([], pos)
  | n + 1 =>
    (readU32Step b pos).bind fun v =>
      (readU32ListStep b v.2 n).bind fun rest =>
        some (v.1 :: rest.1, rest.2)

/-- Chained `n` consecutive `getUint8` reads (the 256 `readUInt8` quadruples of
the palette loop flatten to 1024 sequential byte reads), returning the
bytes and the final position. -/
def readBytesStep (b : List Nat) (pos n : Nat) : Option (List Nat × Nat) :=
  if pos + n ≤ b.length then some ((b.drop pos).take n, pos + n) else none

/-- The BLP header record parsed by `BLPLoader.parse`. -/
structure BLPHeader where
  version : Nat
  colorEncoding : Nat
  alphaSize : Nat
  preferredFormat : Nat
  hasMips : Nat
  width : Nat
  height : Nat
  mipOffsets : List Nat
  mipSizes : List Nat
  palette : List Nat
deriving DecidableEq, Repr

/-- The field reads of the BLP header after the magic: version, four
single-byte fields, width, height, 16 mip offsets, 16 mip sizes, and the
256-entry 4-byte BGRA palette, which the code reads unconditionally.
Returns the header and the final cursor position. -/
def blpParseHeaderAux (b : List Nat) : Option (BLPHeader × Nat) :=
  (readU32Step b 4).bind fun version =>
    (readU8Step b version.2).bind fun colorEncoding =>
      (readU8Step b colorEncoding.2).bind fun alphaSize =>
        (readU8Step b alphaSize.2).bind fun preferredFormat =>
          (readU8Step b preferredFormat.2).bind fun hasMips =>
            (readU32Step b hasMips.2).bind fun width =>
              (readU32Step b width.2).bind fun height =>
                (readU32ListStep b height.2 16).bind fun mipOffsets =>
                  (readU32ListStep b mipOffsets.2 16).bind fun mipSizes =>
                    (readBytesStep b mipSizes.2 1024).bind fun palette =>
                      some (⟨version.1, colorEncoding.1, alphaSize.1,
                        preferredFormat.1, hasMips.1, width.1, height.1,
                        mipOffsets.1, mipSizes.1, palette.1⟩, palette.2)

/-- Header portion of `BLPLoader.parse`: validate the magic (an `Error` is
thrown otherwise) and read the fields of `blpParseHeaderAux`. -/
def blpParseHeader (b : List Nat) : Except JsError (BLPHeader × Nat) :=
  match readTag b 0 with
  | none => .error .rangeError
  | some magic =>
    if magic = MAGIC_BLP2 then
      match blpParseHeaderAux b with
      | some r => .ok r
      | none => .error .rangeError
    else .error .invalidFormat

/-- Spec-claim version of the header parse, for comparison with
`blpParseHeader`: the trailing 256-entry palette table is read only when
the color-encoding field is the palette encoding (`1`); for any other
color encoding no palette bytes are consumed. -/
def blpParseHeaderSpec (b : List Nat) : Except JsError (BLPHeader × Nat) :=
  match readTag b 0 with
  | none => .error .rangeError
  | some magic =>
    if magic = MAGIC_BLP2 then
      match
        (readU32Step b 4).bind fun version =>
          (readU8Step b version.2).bind fun colorEncoding =>
            (readU8Step b colorEncoding.2).bind fun alphaSize =>
              (readU8Step b alphaSize.2).bind fun preferredFormat =>
                (readU8Step b preferredFormat.2).bind fun hasMips =>
                  (readU32Step b hasMips.2).bind fun width =>
                    (readU32Step b width.2).bind fun height =>
                      (readU32ListStep b height.2 16).bind fun mipOffsets =>
                        (readU32ListStep b mipOffsets.2 16).bind fun mipSizes =>
                          (if colorEncoding.1 = 1 then readBytesStep b mipSizes.2 1024
                            else some ([], mipSizes.2)).bind fun palette =>
                            some ((⟨version.1, colorEncoding.1, alphaSize.1,
                              preferredFormat.1, hasMips.1, width.1, height.1,
                              mipOffsets.1, mipSizes.1, palette.1⟩ : BLPHeader), palette.2)
      with
      | some r => .ok r
      | none => .error .rangeError
    else .error .invalidFormat

/-- The mip-chain walk of `BLPLoader.parse`: visit the mip slots in
order, breaking at the first slot whose offset is zero or whose current
width or height is zero; each surviving slot yields the byte range
`[offset, offset + size)` tagged with the current dimensions (the
`Uint8Array` view construction throws a `RangeError` when the range
exceeds the buffer), and the dimensions halve by floor division. The size
list is parallel-indexed to the offset list. -/
def blpMipWalk (b : List Nat) : List Nat → List Nat → Nat → Nat →
    Except JsError (List (List Nat × Nat × Nat))
  | [], _, _, _ => .ok []
  | o :: os, sizes, w, h =>
    if o = 0 ∨ w = 0 ∨ h = 0 then .ok []
    else
      if o + sizes.headD 0 ≤ b.length then
        match blpMipWalk b os sizes.tail (w / 2) (h / 2) with
        | .ok rest => .ok (((b.drop o).take (sizes.headD 0), w, h) :: rest)
        | .error e => .error e
      else .error .rangeError

/-- First stopping slot of a mip chain, written from the spec: the number
of mips decoded before a slot with a zero offset or a zero current
dimension is reached, dimensions halving by floor division each level. -/
def mipStopIndex : List Nat → Nat → Nat → Nat
  | [], _, _ => 0
  | o :: os, w, h =>
    if o = 0 ∨ w = 0 ∨ h = 0 then 0 else mipStopIndex os (w / 2) (h / 2) + 1

/-- The four output bytes emitted for one palette index: channel order
`palette[4i+2], palette[4i+1], palette[4i+0], palette[4i+3]`
(BGRA to RGBA swap); a missing palette entry reads as `undefined` and is
stored into the `Uint8Array` as `0`. -/
def bgraQuad (palette : List Nat) (index : Nat) : List Nat :=
  [palette.getD (index * 4 + 2) 0, palette.getD (index * 4 + 1) 0,
    palette.getD (index * 4 + 0) 0, palette.getD (index * 4 + 3) 0]

/-- The palette-expansion loop over the data of one mip: for each index byte,
write its four output bytes at the running position of the output array
(writes past the end of a `Uint8Array` are silently dropped). -/
def expandLoop (palette : List Nat) : List Nat → List Nat → List Nat
  | [], arr => arr
  | index :: rest, arr =>
    (bgraQuad palette index).take arr.length ++ expandLoop palette rest (arr.drop 4)

/-- Palette expansion of one mip: the output `Uint8Array` is allocated
with `width * height * 4` zero bytes and filled by `expandLoop`. -/
def expandMip (palette : List Nat) (w h : Nat) (mipData : List Nat) : List Nat :=
  expandLoop palette mipData (List.replicate (w * h * 4) 0)

/-- Texture format identifiers assigned by `BLPLoader.parse`. -/
inductive TextureFormat where
  | dxt1 : TextureFormat
  | dxt3 : TextureFormat
  | dxt5 : TextureFormat
  | bc5 : TextureFormat
  | rgba : TextureFormat
deriving DecidableEq, Repr

/-- The texture object produced by `BLPLoader.parse` (the fields this
verification tracks: mip list, dimensions, format, wrap flags). -/
structure Texture where
  mips : List (List Nat × Nat × Nat)
  width : Nat
  height : Nat
  format : TextureFormat
  wrapS : Bool
  wrapT : Bool
deriving DecidableEq, Repr

/-- Texture setup of `BLPLoader.parse`: the four block-compressed formats
pass the mips through with the matching compressed format id; the
unspecified format (`8`) with palette encoding (`1`) expands every mip
through the palette; any other combination only logs and leaves `texture`
undefined, so the following unconditional `texture.name = url` (and the
flag-guarded wrap assignments) throw a `TypeError`. -/
def blpSetupTexture (header : BLPHeader) (mips : List (List Nat × Nat × Nat))
    (flags : Nat) : Except JsError Texture :=
  let tex :=
    if header.preferredFormat = 0 ∨ header.preferredFormat = 1 ∨
        header.preferredFormat = 7 ∨ header.preferredFormat = 11 then
      some (Texture.mk mips header.width header.height
        (if header.preferredFormat = 0 then .dxt1
          else if header.preferredFormat = 1 then .dxt3
          else if header.preferredFormat = 7 then .dxt5 else .bc5) false false)
    else if header.preferredFormat = 8 then
      if header.colorEncoding = 1 then
        some (Texture.mk
          (mips.map (fun m => (expandMip header.palette m.2.1 m.2.2 m.1, m.2.1, m.2.2)))
          header.width header.height .rgba false false)
      else none
    else none
  match tex with
  | none => .error .typeError
  | some t => .ok { t with wrapS := flags &&& 1 ≠ 0, wrapT := flags &&& 2 ≠ 0 }

/-- Full `BLPLoader.parse` over a buffer: header, mip walk, texture
setup. -/
def blpParse (b : List Nat) (flags : Nat) : Except JsError Texture :=
  match blpParseHeader b with
  | .error e => .error e
  | .ok (header, _) =>
    match blpMipWalk b header.mipOffsets header.mipSizes header.width header.height with
    | .error e => .error e
    | .ok mips => blpSetupTexture header mips flags

/-- Combination via `Promise.all` of the per-texture load results: `BLPLoader.load`
catches a `parse` throw and reports it through `onError`, which
`M2Loader._loadTextures` turns into a promise rejection, so the first
failed texture rejects the combined promise that `M2Loader.parse` awaits
without a handler — the whole asset load aborts. -/
def promiseAll : List (Except JsError Texture) → Except JsError (List Texture)
  | [] => .ok []
  | r :: rs =>
    match r with
    | .error e => .error e
    | .ok t =>
      match promiseAll rs with
      | .error e => .error e
      | .ok ts => .ok (t :: ts)

/-- A concrete BLP buffer with color encoding `3` and preferred pixel
format `8` (unspecified format without palette encoding): an unsupported
combination.  All mip offsets are zero. -/
def blpUnsupportedBuf : List Nat :=
  [66, 76, 80, 50] ++ [1, 0, 0, 0] ++ [3, 8, 8, 0] ++ [4, 0, 0, 0] ++ [4, 0, 0, 0] ++
    List.replicate 128 0 ++ List.replicate 1024 9

/-- A concrete BLP buffer with color encoding `2` (DXT-compressed, not the
palette encoding) and preferred pixel format `0`. -/
def blpDxtBuf : List Nat :=
  [66, 76, 80, 50] ++ [1, 0, 0, 0] ++ [2, 0, 0, 0] ++ [4, 0, 0, 0] ++ [4, 0, 0, 0] ++
    List.replicate 128 0 ++ List.replicate 1024 7

/-! ## SequenceManager -/

/-- A parsed M2 sequence, restricted to the fields the sequence manager
reads: id, variation index, and flags (bit `0x20` marks embedded data). -/
structure M2Sequence where
  id : Nat
  variationIndex : Nat
  flags : Nat
deriving DecidableEq, Repr

/-- Key builder `computeSequenceKey`: the string formed of the id, a dash,
and the variation index. -/
def computeSequenceKey (sequenceId variationIndex : Nat) : String :=
  toString sequenceId ++ "-" ++ toString variationIndex

/-- The per-sequence iteration of `listSequences`: sequences with a
positive variation index are skipped; the id is resolved through the
static animation-name table, and a missing entry hits
`name = ''` on the `const` binding `name`, which throws a `TypeError`. -/
def listSequencesGo (animationList : List String) :
    List M2Sequence → Except JsError (List (Nat × String))
  | [] => .ok []
  | s :: rest =>
    if s.variationIndex > 0 then listSequencesGo animationList rest
    else
      match animationList[s.id]? with
      | none => .error .typeError
      | some n =>
        match listSequencesGo animationList rest with
        | .error e => .error e
        | .ok l => .ok ((s.id, n) :: l)

/-- Query `SequenceManager.listSequences`, with the external static id-to-name
animation table passed as a collaborator: collect the variation-0 entries
and sort them ascending by id (`list.sort( compareId )`). -/
def listSequences (animationList : List String) (sequences : List M2Sequence) :
    Except JsError (List (Nat × String)) :=
  (listSequencesGo animationList sequences).map
    (fun l => l.mergeSort (fun a b => a.1 ≤ b.1))

/-- One animation registered under a sequence key: its target (`root`,
by identity) and the flags of the owning sequence. -/
structure SMAnimation where
  root : Nat
  flags : Nat
deriving DecidableEq, Repr

/-- The sequence-manager state used by `playSequence`/`stopSequence`:
the key-to-animations map, the set of targets owning a mixer, and the
external-hydration flags. -/
structure SMState where
  sequenceMap : List (String × List SMAnimation)
  mixers : List Nat
  externalInit : List (String × Bool)
deriving DecidableEq, Repr

/-- The `SequenceManager` constructor: every `(id, variationIndex)` key of
the parsed sequence list is registered with an empty animation list, and
non-embedded sequences get an uninitialized external-data flag. -/
def mkSequenceManager (sequences : List M2Sequence) : SMState :=
  { sequenceMap :=
      sequences.map (fun s => (computeSequenceKey s.id s.variationIndex, [])),
    mixers := [],
    externalInit :=
      sequences.filterMap (fun s =>
        if s.flags &&& 32 = 0 then
          some (computeSequenceKey s.id s.variationIndex, false)
        else none) }

/-- Observable outcomes of one loop step of `playSequence` or
`stopSequence`. -/
inductive PlayEffect where
  | played (root : Nat) : PlayEffect
  | fetchIssued : PlayEffect
  | stopped (root : Nat) : PlayEffect
deriving DecidableEq, Repr

/-- One iteration of the `playSequence` loop: the mixer for the
target of the animation is looked up; an embedded animation plays through it
immediately (`mixer.clipAction` throws a `TypeError` when the mixer is
missing); a non-embedded animation whose key is flagged uninitialized
issues a fetch and touches the mixer only inside the asynchronous
callbacks; otherwise it plays directly. -/
def playAnimation (st : SMState) (key : String) (a : SMAnimation) :
    Except JsError PlayEffect :=
  let mixer := if a.root ∈ st.mixers then some a.root else none
  if a.flags &&& 32 ≠ 0 then
    match mixer with
    | some m => .ok (.played m)
    | none => .error .typeError
  else
    if st.externalInit.lookup key = some false then .ok .fetchIssued
    else
      match mixer with
      | some m => .ok (.played m)
      | none => .error .typeError

/-- Run a per-animation action over the registered list, stopping at the
first thrown error. -/
def runAnimations (f : SMAnimation → Except JsError PlayEffect) :
    List SMAnimation → Except JsError (List PlayEffect)
  | [] => .ok []
  | a :: rest =>
    match f a with
    | .error e => .error e
    | .ok eff =>
      match runAnimations f rest with
      | .error e => .error e
      | .ok effs => .ok (eff :: effs)

/-- Method `SequenceManager.playSequence`: the per-key animation list is fetched
with `Map.get`; an unregistered key yields `undefined`, and the
`for ... of` loop over it throws a `TypeError`. -/
def playSequence (st : SMState) (id variationIndex : Nat) :
    Except JsError (List PlayEffect) :=
  match st.sequenceMap.lookup (computeSequenceKey id variationIndex) with
  | none => .error .typeError
  | some animations =>
    runAnimations (playAnimation st (computeSequenceKey id variationIndex)) animations

/-- Method `SequenceManager.stopSequence`: same lookup discipline; each
iteration calls `stopAllAction` on the mixer of the target. -/
def stopSequence (st : SMState) (id variationIndex : Nat) :
    Except JsError (List PlayEffect) :=
  match st.sequenceMap.lookup (computeSequenceKey id variationIndex) with
  | none => .error .typeError
  | some animations =>
    runAnimations
      (fun a => if a.root ∈ st.mixers then .ok (.stopped a.root) else .error .typeError)
      animations

/-- Invariant established by `addAnimationToSequence`: every animation
registered under some key has a mixer for its target. -/
def MixerInvariant (st : SMState) : Prop :=
  ∀ key anims, st.sequenceMap.lookup key = some anims →
    ∀ a ∈ anims, a.root ∈ st.mixers

/-- Whether an `Except` result is a normal return. -/
def exceptIsOk {ε α : Type} : Except ε α → Bool
  | .ok _ => true
  | .error _ => false

/-- The header that `blpParseHeader` produces for `blpDxtBuf`. -/
def blpDxtHeader : BLPHeader :=
  ⟨1, 2, 0, 0, 0, 4, 4, List.replicate 16 0, List.replicate 16 0,
    List.replicate 1024 7⟩

end M2

namespace M2

/-! ## Theorems -/

/-- With at least four bytes available, `readString( 4 )` at position `0`
returns the first four bytes of the buffer. -/
theorem readTag_zero_eq_take (b : List Nat) (h : 4 ≤ b.length) :
    readTag b 0 = some (b.take 4) := by
  match b, h with
  | b0 :: b1 :: b2 :: b3 :: rest, _ =>
    simp [readTag, readUInt8, List.take]

/-- A buffer whose first four bytes form the wrapper magic has at least
four bytes. -/
theorem length_ge_four_of_take_magic (b : List Nat) (h : b.take 4 = MAGIC_MD21) :
    4 ≤ b.length := by
  have hl := congrArg List.length h
  simp [List.length_take, MAGIC_MD21] at hl
  omega

/-- C1: for a chunked container (outer magic `MD21`) the chunk origin after
wrapper detection is `8`, the byte offset just past the outer 4-byte magic
plus 4-byte size pair, and every `moveTo offset` lands at `offset + 8`;
for a bare container the chunk origin is `0` and `moveTo offset` lands at
`offset`. -/
theorem chunk_origin_after_wrapper (b : List Nat) (magic : List Nat) (st : CursorState)
    (h : parseMagicDetect b = some (magic, st)) :
    (b.take 4 = MAGIC_MD21 → st.chunkOffset = 8 ∧ ∀ o, (moveTo st o).offset = o + 8) ∧
    (b.take 4 ≠ MAGIC_MD21 → st.chunkOffset = 0 ∧ ∀ o, (moveTo st o).offset = o) := by
  have hlen : 4 ≤ b.length := by
    by_contra hlt
    push_neg at hlt
    have hnone : readTag b 0 = none := by
      unfold readTag readUInt8
      interval_cases hb : b.length <;>
        · match b, hb with
          | [], _ => rfl
          | [_], _ => rfl
          | [_, _], _ => rfl
          | [_, _, _], _ => rfl
    unfold parseMagicDetect readTagSt at h
    simp [hnone, initialCursor] at h
  have htag : readTag b 0 = some (b.take 4) := readTag_zero_eq_take b hlen
  simp only [parseMagicDetect, readTagSt, initialCursor] at h
  rw [htag] at h
  simp at h
  by_cases hmd : b.take 4 = MAGIC_MD21
  · rw [hmd, if_pos rfl] at h
    simp only [Option.bind_eq_some, Option.pure_def, Option.some_inj] at h
    obtain ⟨t, ht, heq⟩ := h
    obtain ⟨hmagic, hst⟩ := Prod.mk.inj heq
    subst hst
    refine ⟨fun _ => ⟨rfl, fun o => rfl⟩, fun hne => absurd hmd hne⟩
  · rw [if_neg hmd] at h
    simp only [Option.pure_def, Option.some_inj] at h
    obtain ⟨hmagic, hst⟩ := Prod.mk.inj h
    subst hst
    exact ⟨fun hc => absurd hc hmd, fun _ => ⟨rfl, fun o => rfl⟩⟩

/-- Witness for C1 on concrete chunked and bare buffers. -/
theorem chunk_origin_after_wrapper_witness :
    ∃ magic st, parseMagicDetect
        [77, 68, 50, 49, 4, 0, 0, 0, 77, 68, 50, 48] = some (magic, st) ∧
      st.chunkOffset = 8 ∧ (moveTo st 100).offset = 108 := by
  have h : parseMagicDetect [77, 68, 50, 49, 4, 0, 0, 0, 77, 68, 50, 48] =
      some (MAGIC_MD20, ⟨12, 8⟩) := by decide
  refine ⟨MAGIC_MD20, ⟨12, 8⟩, h, ?_, ?_⟩
  · exact (chunk_origin_after_wrapper _ _ _ h).1 (by decide) |>.1
  · exact (chunk_origin_after_wrapper _ _ _ h).1 (by decide) |>.2 100

/-- A successful chunk scan satisfies the chained-consumption invariant
from its starting position. -/
theorem readChunksLoop_chained (b : List Nat) :
    ∀ fuel pos es, readChunksLoop b pos fuel = some es →
      ChunkEntriesChained b pos es := by
  intro fuel
  induction fuel with
  | zero => intro pos es h; simp [readChunksLoop] at h
  | succ n ih =>
    intro pos es h
    unfold readChunksLoop at h
    split at h
    · split at h
      · rename_i tag size htag hsize
        rw [Option.map_eq_some'] at h
        obtain ⟨rest, hrest, hes⟩ := h
        subst hes
        refine ⟨by assumption, htag, rfl, by omega, ?_, ih _ _ hrest⟩
        simpa using hsize
      · exact absurd h (by simp)
    · rename_i hp
      cases h
      simpa [ChunkEntriesChained] using Nat.le_of_not_lt hp

/-- C2 counterexample: on a concrete chunked container (outer `MD21`
wrapper of size 4 followed by one `TXID` side chunk) the side-chunk
scan differs from a scan that starts at the chunk origin: the code records
the `MD21` wrapper pair itself as the first entry, while a scan from the
chunk origin would misread the wrapped `MD20` record as a tag. -/
theorem readChunks_not_from_chunk_origin :
    readChunks [77, 68, 50, 49, 4, 0, 0, 0, 77, 68, 50, 48,
        84, 88, 73, 68, 4, 0, 0, 0, 1, 0, 0, 0] =
      some [([77, 68, 50, 49], 8, 12), ([84, 88, 73, 68], 20, 24)] ∧
    readChunksSpecFromOrigin [77, 68, 50, 49, 4, 0, 0, 0, 77, 68, 50, 48,
        84, 88, 73, 68, 4, 0, 0, 0, 1, 0, 0, 0] =
      some [([77, 68, 50, 48], 16, 1145657444)] ∧
    readChunks [77, 68, 50, 49, 4, 0, 0, 0, 77, 68, 50, 48,
        84, 88, 73, 68, 4, 0, 0, 0, 1, 0, 0, 0] ≠
      readChunksSpecFromOrigin [77, 68, 50, 49, 4, 0, 0, 0, 77, 68, 50, 48,
        84, 88, 73, 68, 4, 0, 0, 0, 1, 0, 0, 0] := by
  refine ⟨by decide, by decide, by decide⟩

/-- C2 (amended): the side-chunk scan starts at the very beginning of the
buffer, the magic+size pair of the outer wrapper itself being recorded as the
first entry; from there it walks toward the buffer end in (4-byte tag,
4-byte size) pairs, records for each tag its `[start, end)` range, consumes
exactly `size` bytes per entry, and stops once the position reaches or
passes the buffer end. -/
theorem readChunks_chained_from_start (b : List Nat) (es : List (List Nat × Nat × Nat))
    (h : readChunks b = some es) :
    ChunkEntriesChained b 0 es ∧
    (b.take 4 = MAGIC_MD21 → ∃ e rest, es = (MAGIC_MD21, 8, e) :: rest) := by
  have hch := readChunksLoop_chained b _ _ _ h
  refine ⟨hch, ?_⟩
  intro hmd
  have hlen : 4 ≤ b.length := length_ge_four_of_take_magic b hmd
  cases es with
  | nil =>
    exfalso
    have hle : b.length ≤ 0 := hch
    omega
  | cons hd tl =>
    obtain ⟨tag, s, e⟩ := hd
    obtain ⟨hp, htag, hs, hse, hsz, hrest⟩ := hch
    have htake : readTag b 0 = some (b.take 4) := readTag_zero_eq_take b hlen
    rw [htake] at htag
    obtain rfl : b.take 4 = tag := Option.some.inj htag
    exact ⟨e, tl, by rw [hmd, hs]⟩

/-- Witness for the amended C2 on the concrete chunked container. -/
theorem readChunks_chained_from_start_witness :
    ChunkEntriesChained [77, 68, 50, 49, 4, 0, 0, 0, 77, 68, 50, 48,
        84, 88, 73, 68, 4, 0, 0, 0, 1, 0, 0, 0] 0
      [([77, 68, 50, 49], 8, 12), ([84, 88, 73, 68], 20, 24)] :=
  (readChunks_chained_from_start _ _ (by decide)).1

/-- C3: each compressed-quaternion component `c` decodes to
`(c + 32768) / 32767` when `c < 0` and to `(c - 32767) / 32767` otherwise;
raw `32767` and raw `-32768` both decode to exactly `0`, raw `0` decodes
to `-32767 / 32767`. -/
theorem quat_compressed_decode (b : List Nat) (pos : Nat) (q : List ℚ)
    (h : extractQuatCompressed b pos = some q) :
    (∀ i : Fin 4, ∃ c : Int, readInt16 b (pos + 2 * i.val) = some c ∧
      q.getD i.val 0 = (if c < 0 then (c : ℚ) + 32768 else (c : ℚ) - 32767) / 32767) ∧
    quatShortToFloat 32767 = 0 ∧
    quatShortToFloat (-32768) = 0 ∧
    quatShortToFloat 0 = -32767 / 32767 := by
  unfold extractQuatCompressed at h
  simp [Option.bind_eq_some] at h
  obtain ⟨x, hx, y, hy, z, hz, w, hw, hq⟩ := h
  refine ⟨?_, by norm_num [quatShortToFloat], by norm_num [quatShortToFloat],
    by norm_num [quatShortToFloat]⟩
  intro i
  fin_cases i
  · exact ⟨x, by simpa using hx, by simp [← hq, quatShortToFloat]⟩
  · exact ⟨y, by simpa using hy, by simp [← hq, quatShortToFloat]⟩
  · exact ⟨z, by simpa using hz, by simp [← hq, quatShortToFloat]⟩
  · exact ⟨w, by simpa using hw, by simp [← hq, quatShortToFloat]⟩

/-- Witness for C3 on a concrete 8-byte buffer holding the raw int16 values
`32767, -32768, 0, 1`. -/
theorem quat_compressed_decode_witness :
    ∃ q, extractQuatCompressed [255, 127, 0, 128, 0, 0, 1, 0] 0 = some q ∧
      (∀ i : Fin 4, ∃ c : Int,
        readInt16 [255, 127, 0, 128, 0, 0, 1, 0] (0 + 2 * i.val) = some c ∧
        q.getD i.val 0 = (if c < 0 then (c : ℚ) + 32768 else (c : ℚ) - 32767) / 32767) := by
  have h : extractQuatCompressed [255, 127, 0, 128, 0, 0, 1, 0] 0 =
      some [quatShortToFloat 32767, quatShortToFloat (-32768),
        quatShortToFloat 0, quatShortToFloat 1] := by
    simp [extractQuatCompressed, readInt16, readUInt16, readUInt8]
  exact ⟨_, h, (quat_compressed_decode _ _ _ h).1⟩

/-- C4: `isStaticTrack` is true exactly when the track has a single
sub-sequence whose timestamp list is the single entry `0`; a single
sub-sequence with two or more timestamps is never static, even when its
first timestamp is `0`. -/
theorem isStaticTrack_iff (t : M2Track) :
    (isStaticTrack t = true ↔ t.timestamps = [[0]]) ∧
    (∀ ts vals, 2 ≤ ts.length → isStaticTrack ⟨[ts], vals⟩ = false) := by
  constructor
  · unfold isStaticTrack
    constructor
    · intro h
      simp only [Bool.and_eq_true, beq_iff_eq] at h
      obtain ⟨⟨h1, h2⟩, h3⟩ := h
      match t, h1 with
      | ⟨[ts0], vals⟩, _ =>
        simp only [List.getD] at h2 h3
        match ts0, h2 with
        | [x], _ =>
          simp at h3
          simp [h3]
    · intro h
      simp [h]
  · intro ts vals hlen
    unfold isStaticTrack
    match ts, hlen with
    | x :: y :: rest, _ => simp

/-- Witness for C4: the track `[[0]]` is static, while `[[0, 1/2]]` is not
despite its first timestamp being `0`. -/
theorem isStaticTrack_iff_witness :
    isStaticTrack ⟨[[0]], [[1]]⟩ = true ∧
    isStaticTrack ⟨[[0, 1/2]], [[1, 2]]⟩ = false := by
  constructor
  · exact (isStaticTrack_iff ⟨[[0]], [[1]]⟩).1.mpr rfl
  · exact (isStaticTrack_iff ⟨[[0, 1/2]], [[1, 2]]⟩).2 [0, 1/2] [[1, 2]] (by decide)

/-- C5: on a buffer whose color-encoding/pixel-format combination is
neither block-compressed nor unspecified-with-palette, `BLPLoader.parse`
does not merely log: `texture` stays undefined and the trailing
`texture.name = url` throws a `TypeError`, so the texture promise rejects
and the awaited `Promise.all` aborts the whole asset load. -/
theorem blp_unsupported_combo_aborts_load :
    blpParse blpUnsupportedBuf 0 = .error .typeError ∧
    promiseAll [blpParse blpUnsupportedBuf 0] = .error .typeError := by
  constructor <;> rfl

/-- Position advance of a `getUint32` step. -/
theorem readU32Step_pos (b : List Nat) (pos v p : Nat)
    (h : readU32Step b pos = some (v, p)) : p = pos + 4 := by
  simp [readU32Step, Option.map_eq_some'] at h
  obtain ⟨a, _, _, hp⟩ := h
  omega

/-- Position advance of a `getUint8` step. -/
theorem readU8Step_pos (b : List Nat) (pos v p : Nat)
    (h : readU8Step b pos = some (v, p)) : p = pos + 1 := by
  simp [readU8Step, Option.map_eq_some'] at h
  obtain ⟨a, _, _, hp⟩ := h
  omega

/-- Position advance of a block of `getUint32` steps. -/
theorem readU32ListStep_pos (b : List Nat) :
    ∀ n pos l p, readU32ListStep b pos n = some (l, p) → p = pos + 4 * n := by
  intro n
  induction n with
  | zero =>
    intro pos l p h
    simp [readU32ListStep] at h
    omega
  | succ n ih =>
    intro pos l p h
    simp only [readU32ListStep, Option.bind_eq_some] at h
    obtain ⟨v, h1, h⟩ := h
    obtain ⟨rest, h2, h⟩ := h
    have hp1 := readU32Step_pos b pos v.1 v.2 h1
    have hp2 := ih v.2 rest.1 rest.2 h2
    rw [Option.some_inj] at h
    obtain ⟨-, hp⟩ := Prod.mk.inj h
    omega

/-- A byte-block read returns the corresponding slice and advances. -/
theorem readBytesStep_spec (b : List Nat) (pos n : Nat) (l : List Nat) (p : Nat)
    (h : readBytesStep b pos n = some (l, p)) :
    l = (b.drop pos).take n ∧ p = pos + n ∧ pos + n ≤ b.length := by
  unfold readBytesStep at h
  split at h
  · rename_i hle
    simp at h
    exact ⟨h.1.symm, h.2.symm, hle⟩
  · simp at h

/-- C6 counterexample: on a concrete texture buffer whose color encoding
is `2` (DXT, not the palette encoding), the header parse of the code still
consumes the 1024 palette bytes (final position `1172`), while the
spec-claim parse that skips the palette for non-palette encodings stops at
position `148`. -/
theorem blp_palette_conditional_counterexample :
    blpParseHeader blpDxtBuf = .ok (blpDxtHeader, 1172) ∧
    blpParseHeaderSpec blpDxtBuf =
      .ok ({ blpDxtHeader with palette := [] }, 148) ∧
    blpParseHeader blpDxtBuf ≠ blpParseHeaderSpec blpDxtBuf := by
  refine ⟨by rfl, by rfl, ?_⟩
  intro hc
  rw [show blpParseHeader blpDxtBuf = .ok (blpDxtHeader, 1172) from rfl] at hc
  rw [show blpParseHeaderSpec blpDxtBuf =
    .ok ({ blpDxtHeader with palette := [] }, 148) from rfl] at hc
  simp at hc

/-- C6 (amended): the 256-entry 4-byte BGRA palette table is read
unconditionally by the header parse, whatever the color-encoding value:
a successful parse always ends at position `1172` with the palette equal
to the 1024 bytes following the mip tables. -/
theorem blp_header_palette_always_consumed (b : List Nat) (hdr : BLPHeader) (pos : Nat)
    (h : blpParseHeader b = .ok (hdr, pos)) :
    pos = 1172 ∧ hdr.palette = (b.drop 148).take 1024 ∧ 1172 ≤ b.length := by
  unfold blpParseHeader at h
  split at h
  · exact absurd h (by simp)
  · rename_i magic hmagic
    split at h
    · split at h
      · rename_i r haux
        injection h with h'
        subst h'
        simp only [blpParseHeaderAux, Option.bind_eq_some] at haux
        obtain ⟨version, h1, haux⟩ := haux
        obtain ⟨colorEncoding, h2, haux⟩ := haux
        obtain ⟨alphaSize, h3, haux⟩ := haux
        obtain ⟨preferredFormat, h4, haux⟩ := haux
        obtain ⟨hasMips, h5, haux⟩ := haux
        obtain ⟨width, h6, haux⟩ := haux
        obtain ⟨height, h7, haux⟩ := haux
        obtain ⟨mipOffsets, h8, haux⟩ := haux
        obtain ⟨mipSizes, h9, haux⟩ := haux
        obtain ⟨palette, h10, haux⟩ := haux
        rw [Option.some_inj] at haux
        obtain ⟨hhdr, hpos⟩ := Prod.mk.inj haux
        have e1 := readU32Step_pos b 4 version.1 version.2 h1
        have e2 := readU8Step_pos b version.2 colorEncoding.1 colorEncoding.2 h2
        have e3 := readU8Step_pos b colorEncoding.2 alphaSize.1 alphaSize.2 h3
        have e4 := readU8Step_pos b alphaSize.2 preferredFormat.1 preferredFormat.2 h4
        have e5 := readU8Step_pos b preferredFormat.2 hasMips.1 hasMips.2 h5
        have e6 := readU32Step_pos b hasMips.2 width.1 width.2 h6
        have e7 := readU32Step_pos b width.2 height.1 height.2 h7
        have e8 := readU32ListStep_pos b 16 height.2 mipOffsets.1 mipOffsets.2 h8
        have e9 := readU32ListStep_pos b 16 mipOffsets.2 mipSizes.1 mipSizes.2 h9
        obtain ⟨hpal, e10, hbound⟩ :=
          readBytesStep_spec b mipSizes.2 1024 palette.1 palette.2 h10
        have hp9 : mipSizes.2 = 148 := by omega
        subst hhdr
        refine ⟨by omega, ?_, by omega⟩
        show palette.1 = (b.drop 148).take 1024
        rw [hpal, hp9]
      · exact absurd h (by simp)
    · exact absurd h (by simp)

/-- Witness for the amended C6 on the concrete DXT-encoded buffer. -/
theorem blp_header_palette_always_consumed_witness :
    (1172 : Nat) = 1172 ∧
    blpDxtHeader.palette = (blpDxtBuf.drop 148).take 1024 ∧
    1172 ≤ blpDxtBuf.length :=
  blp_header_palette_always_consumed blpDxtBuf blpDxtHeader 1172 (by rfl)

/-- C7: the mip walk visits the slots in order, stopping exactly at the
first slot whose offset is zero or whose current width or height has
reached zero; the `i`-th surviving mip carries the byte range of the
`i`-th offset/size pair and dimensions halved `i` times by integer floor
division, with no clamping to one. -/
theorem blpMipWalk_stops_at_first_zero (b : List Nat) :
    ∀ offs szs w h mips, blpMipWalk b offs szs w h = .ok mips →
      mips.length = mipStopIndex offs w h ∧
      ∀ i, i < mips.length →
        mips.getD i ([], 0, 0) =
          ((b.drop (offs.getD i 0)).take (szs.getD i 0), w / 2 ^ i, h / 2 ^ i) ∧
        offs.getD i 0 ≠ 0 ∧ w / 2 ^ i ≠ 0 ∧ h / 2 ^ i ≠ 0 := by
  intro offs
  induction offs with
  | nil =>
    intro szs w h mips hw
    simp only [blpMipWalk] at hw
    cases hw
    exact ⟨rfl, fun i hi => absurd hi (by simp)⟩
  | cons o os ih =>
    intro szs w h mips hw
    unfold blpMipWalk at hw
    split at hw
    · rename_i hstop
      cases hw
      refine ⟨by simp [mipStopIndex, hstop], fun i hi => absurd hi (by simp)⟩
    · rename_i hstop
      split at hw
      · split at hw
        · rename_i rest hrest
          cases hw
          obtain ⟨ihlen, ihent⟩ := ih szs.tail (w / 2) (h / 2) rest hrest
          push_neg at hstop
          obtain ⟨ho, hwnz, hhnz⟩ := hstop
          constructor
          · simp [mipStopIndex, ho, hwnz, hhnz, ihlen]
          · intro i hi
            cases i with
            | zero =>
              refine ⟨?_, by simpa using ho, by simpa using hwnz, by simpa using hhnz⟩
              have hhead : szs.headD 0 = szs.getD 0 0 := by cases szs <;> rfl
              simp only [List.getD_cons_zero, pow_zero, Nat.div_one]
              rw [hhead]
            | succ i =>
              have hlt : i < rest.length := by simpa using hi
              obtain ⟨he, hoz, hwz, hhz⟩ := ihent i hlt
              have hdd : ∀ x : Nat, x / 2 / 2 ^ i = x / 2 ^ (i + 1) := by
                intro x
                rw [Nat.div_div_eq_div_mul, pow_succ, Nat.mul_comm]
              have htail : szs.tail.getD i 0 = szs.getD (i + 1) 0 := by
                cases szs <;> rfl
              refine ⟨?_, by simpa using hoz, ?_, ?_⟩
              · rw [List.getD_cons_succ, he, htail, hdd, hdd]
                simp
              · rw [← hdd]; exact hwz
              · rw [← hdd]; exact hhz
        · exact absurd hw (by simp)
      · exact absurd hw (by simp)

/-- Witness for C7: with mip offsets `[100, 0, 200, 0, ...]` exactly one
mip is decoded, whatever the later non-zero entries. -/
theorem blpMipWalk_stops_at_first_zero_witness :
    blpMipWalk (List.replicate 108 5) ([100, 0, 200] ++ List.replicate 13 0)
        ([8] ++ List.replicate 15 0) 4 4 = .ok [(List.replicate 8 5, 4, 4)] ∧
    (1 : Nat) = mipStopIndex ([100, 0, 200] ++ List.replicate 13 0) 4 4 := by
  have h : blpMipWalk (List.replicate 108 5) ([100, 0, 200] ++ List.replicate 13 0)
      ([8] ++ List.replicate 15 0) 4 4 = .ok [(List.replicate 8 5, 4, 4)] := by rfl
  refine ⟨h, ?_⟩
  have := (blpMipWalk_stops_at_first_zero (List.replicate 108 5) _ _ 4 4 _ h).1
  simpa using this

/-- The expansion loop writes the flattened quadruples of its input and
leaves the remainder of the output array untouched, provided the array is
long enough. -/
theorem expandLoop_eq_flatMap (palette : List Nat) :
    ∀ (data arr : List Nat), 4 * data.length ≤ arr.length →
      expandLoop palette data arr =
        data.flatMap (bgraQuad palette) ++ arr.drop (4 * data.length) := by
  intro data
  induction data with
  | nil => intro arr h; simp [expandLoop]
  | cons idx rest ih =>
    intro arr h
    have hlen : 4 ≤ arr.length := by
      simp only [List.length_cons] at h
      omega
    have htake : (bgraQuad palette idx).take arr.length = bgraQuad palette idx :=
      List.take_of_length_le (by simp [bgraQuad]; omega)
    have hrec : 4 * rest.length ≤ (arr.drop 4).length := by
      simp only [List.length_cons] at h
      simp [List.length_drop]
      omega
    rw [expandLoop, htake, ih (arr.drop 4) hrec, List.flatMap_cons, List.drop_drop]
    rw [show 4 * (idx :: rest).length = 4 + 4 * rest.length by simp; ring]
    simp [List.append_assoc]

/-- Slicing the flattened quadruples at `4 * j` recovers the quadruple of
the `j`-th index byte. -/
theorem flatMap_quad_slice (palette : List Nat) :
    ∀ (data : List Nat) (j : Nat), j < data.length →
      ((data.flatMap (bgraQuad palette)).drop (4 * j)).take 4 =
        bgraQuad palette (data.getD j 0) := by
  intro data
  induction data with
  | nil => intro j hj; simp at hj
  | cons idx rest ih =>
    intro j hj
    cases j with
    | zero =>
      simp only [List.flatMap_cons, Nat.mul_zero, List.drop_zero, List.getD_cons_zero]
      rw [List.take_append_of_le_length (by simp [bgraQuad])]
      exact List.take_of_length_le (by simp [bgraQuad])
    | succ j =>
      have hq : (bgraQuad palette idx).length = 4 := by simp [bgraQuad]
      rw [List.flatMap_cons, show 4 * (j + 1) = (bgraQuad palette idx).length + 4 * j by
        simp [bgraQuad]; ring]
      rw [List.drop_append, List.getD_cons_succ]
      exact ih j (by simpa using hj)

/-- C8: in the expanded output of a palette-encoded mip, the four bytes at
position `4 * j` are exactly `palette[i*4+2], palette[i*4+1],
palette[i*4+0], palette[i*4+3]` for the `j`-th index byte `i` of the mip
data: the BGRA-to-RGBA channel swap. -/
theorem palette_expansion_quads (palette data : List Nat) (w h j : Nat)
    (hwh : data.length = w * h) (hj : j < data.length) :
    ((expandMip palette w h data).drop (4 * j)).take 4 =
      [palette.getD (data.getD j 0 * 4 + 2) 0,
        palette.getD (data.getD j 0 * 4 + 1) 0,
        palette.getD (data.getD j 0 * 4 + 0) 0,
        palette.getD (data.getD j 0 * 4 + 3) 0] := by
  unfold expandMip
  rw [expandLoop_eq_flatMap palette data (List.replicate (w * h * 4) 0)
    (by simp [List.length_replicate]; omega)]
  rw [show (List.replicate (w * h * 4) 0).drop (4 * data.length) = [] by
    apply List.drop_eq_nil_of_le
    simp [List.length_replicate]
    omega]
  rw [List.append_nil]
  exact flatMap_quad_slice palette data j hj

/-- Witness for C8: index byte `0` with palette bytes `[10, 20, 30, 40]`
(B, G, R, A) expands to `[30, 20, 10, 40]` (R, G, B, A). -/
theorem palette_expansion_quads_witness :
    ((expandMip [10, 20, 30, 40] 1 1 [0]).drop (4 * 0)).take 4 = [30, 20, 10, 40] ∧
    expandMip [10, 20, 30, 40] 1 1 [0] = [30, 20, 10, 40] := by
  refine ⟨?_, by rfl⟩
  have := palette_expansion_quads [10, 20, 30, 40] [0] 1 1 0 (by rfl) (by decide)
  simpa using this

/-- C9: whenever the sequence list contains a variation-0 sequence whose
id has no entry in the animation-name table, `listSequences` throws a
`TypeError` (the assignment `name = ''` targets a `const` binding)
instead of returning an entry with an empty name. -/
theorem listSequences_unknown_id_throws (animationList : List String)
    (seqs : List M2Sequence) (s : M2Sequence) (hs : s ∈ seqs)
    (hv : s.variationIndex = 0) (hid : animationList.length ≤ s.id) :
    listSequences animationList seqs = .error .typeError := by
  unfold listSequences
  suffices hgo : ∀ l : List M2Sequence, s ∈ l →
      listSequencesGo animationList l = .error .typeError by
    rw [hgo seqs hs]
    rfl
  intro l hl
  induction l with
  | nil => cases hl
  | cons hd tl ih =>
    unfold listSequencesGo
    by_cases hhd : hd.variationIndex > 0
    · rw [if_pos hhd]
      rcases List.mem_cons.mp hl with rfl | hl'
      · omega
      · exact ih hl'
    · rw [if_neg hhd]
      cases hlook : animationList[hd.id]? with
      | none => rfl
      | some n =>
        rcases List.mem_cons.mp hl with rfl | hl'
        · exfalso
          obtain ⟨hlt, -⟩ := List.getElem?_eq_some_iff.mp hlook
          omega
        · rw [ih hl']

/-- Witness for C9: a single variation-0 sequence with id `5` against a
one-entry name table makes `listSequences` throw. -/
theorem listSequences_unknown_id_throws_witness :
    listSequences ["Stand"] [⟨5, 0, 0⟩] = .error .typeError :=
  listSequences_unknown_id_throws ["Stand"] [⟨5, 0, 0⟩] ⟨5, 0, 0⟩
    (by decide) (by decide) (by decide)

/-- Any per-animation action that succeeds on every registered animation
makes the loop return normally. -/
theorem runAnimations_ok (f : SMAnimation → Except JsError PlayEffect) :
    ∀ anims : List SMAnimation, (∀ a ∈ anims, exceptIsOk (f a) = true) →
      exceptIsOk (runAnimations f anims) = true := by
  intro anims
  induction anims with
  | nil => intro _; rfl
  | cons a rest ih =>
    intro hall
    have ha := hall a (by simp)
    unfold runAnimations
    cases hfa : f a with
    | error e => rw [hfa] at ha; exact absurd ha (by simp [exceptIsOk])
    | ok eff =>
      have hrest := ih (fun x hx => hall x (by simp [hx]))
      cases hr : runAnimations f rest with
      | error e => rw [hr] at hrest; exact absurd hrest (by simp [exceptIsOk])
      | ok effs => rfl

/-- C10: under the mixer invariant maintained by registration,
`playSequence` and `stopSequence` throw a `TypeError` exactly on keys that
were never registered from the parsed sequence list (the `Map.get` lookup
yields `undefined`, which the `for ... of` loop then iterates), and return
normally exactly on registered keys. -/
theorem playStop_throw_iff_unregistered (st : SMState) (hinv : MixerInvariant st)
    (id variationIndex : Nat) :
    (st.sequenceMap.lookup (computeSequenceKey id variationIndex) = none →
      playSequence st id variationIndex = .error .typeError ∧
      stopSequence st id variationIndex = .error .typeError) ∧
    (∀ anims, st.sequenceMap.lookup (computeSequenceKey id variationIndex) = some anims →
      exceptIsOk (playSequence st id variationIndex) = true ∧
      exceptIsOk (stopSequence st id variationIndex) = true) := by
  constructor
  · intro hnone
    constructor
    · unfold playSequence
      rw [hnone]
    · unfold stopSequence
      rw [hnone]
  · intro anims hsome
    have hmix : ∀ a ∈ anims, a.root ∈ st.mixers := hinv _ anims hsome
    constructor
    · unfold playSequence
      rw [hsome]
      apply runAnimations_ok
      intro a ha
      have hroot := hmix a ha
      unfold playAnimation
      simp only [if_pos hroot]
      split
      · rfl
      · split
        · rfl
        · rfl
    · unfold stopSequence
      rw [hsome]
      apply runAnimations_ok
      intro a ha
      rw [if_pos (hmix a ha)]
      rfl

/-- Witness for C10: in the manager built from the single sequence
`(id 1, variation 0)`, playing or stopping the unregistered key `(2, 0)`
throws while the registered key `(1, 0)` returns normally. -/
theorem playStop_throw_iff_unregistered_witness :
    (playSequence (mkSequenceManager [⟨1, 0, 32⟩]) 2 0 = .error .typeError ∧
      stopSequence (mkSequenceManager [⟨1, 0, 32⟩]) 2 0 = .error .typeError) ∧
    (exceptIsOk (playSequence (mkSequenceManager [⟨1, 0, 32⟩]) 1 0) = true ∧
      exceptIsOk (stopSequence (mkSequenceManager [⟨1, 0, 32⟩]) 1 0) = true) := by
  have hinv : MixerInvariant (mkSequenceManager [⟨1, 0, 32⟩]) := by
    intro key anims h a ha
    have hmap : (mkSequenceManager [⟨1, 0, 32⟩]).sequenceMap =
        [(computeSequenceKey 1 0, [])] := rfl
    rw [hmap] at h
    by_cases hk : (key == computeSequenceKey 1 0) = true
    · simp [List.lookup, hk] at h
      subst h
      cases ha
    · simp [List.lookup, hk] at h
  constructor
  · exact (playStop_throw_iff_unregistered (mkSequenceManager [⟨1, 0, 32⟩]) hinv 2 0).1
      (by decide)
  · exact (playStop_throw_iff_unregistered (mkSequenceManager [⟨1, 0, 32⟩]) hinv 1 0).2
      [] (by decide)

